import Mathlib

/-!
# echooo_go: the WebSocket broadcast relay of `main.go`

A shallow embedding of `src/main.go` and theorems about it.

Modelling conventions.

* A connection (`*websocket.Conn`) is an opaque handle, here a natural number.
* The global `clients` map (`map[*websocket.Conn]bool`, every stored value is `true`)
  is the list of its keys, in the order `range` visits them.  Go leaves that order
  unspecified, so nothing below depends on it: theorems about a broadcast hold for
  every list, hence for every visiting order.
* `clientsMutex` is a `sync.Mutex`, which is not reentrant.  The field `locked` says
  whether the task being executed holds it.  `Lock()` by a task that already holds the
  mutex never returns; this is the outcome `Result.blocked`.
* `WriteJSON` is an effect of the outside world.  Its outcome is given by a function
  `wr : Nat → Conn → Bool`: `wr n c` tells whether the write to `c` succeeds when `n` writes
  have been attempted before it.  Every attempted write is recorded in `State.writes`
  together with whether the mutex was held at that moment.
* `ReadJSON` results are supplied as a list of `ReadResult`; when the list is used up
  the handler is waiting for input (`HResult.waiting`).
* Logging and printing are not modelled.
-/

namespace Echooo

/-- A connection handle (`*websocket.Conn`). -/
abbrev Conn := Nat

/-- The struct `Message` (main.go, lines 12-17).  The Go field `Type` is spelled `type`
here because `Type` is reserved. -/
structure Message where
  type : String
  Text : String
  X : Int
  Y : Int
deriving DecidableEq, Repr

/-- The zero value `Message{}`, the initial `currentMessage`. -/
def Message.zero : Message := ⟨"", "", 0, 0⟩

/-! ## JSON encoding of `Message` (struct tags, lines 13-16) -/

/-- The JSON values a `Message` field can carry. -/
inductive JVal where
  | str (s : String)
  | num (n : Int)
deriving DecidableEq, Repr

/-- Emptiness in the sense of `omitempty` of `encoding/json`: the empty string and zero. -/
def JVal.isEmptyValue : JVal → Bool
  | .str s => decide (s = "")
  | .num n => decide (n = 0)

/-- One struct field as the encoder sees it: JSON key, the `omitempty` option, value. -/
structure Field where
  key : String
  omitempty : Bool
  value : JVal
deriving DecidableEq, Repr

/-- The fields of `Message` with their tags, in declaration order. -/
def Message.fields (m : Message) : List Field :=
  [ ⟨"type", false, .str m.type⟩,
    ⟨"text", true, .str m.Text⟩,
    ⟨"x", true, .num m.X⟩,
    ⟨"y", true, .num m.Y⟩ ]

/-- Struct encoding: a field is left out exactly when it is tagged `omitempty` and its
value is empty. -/
def marshalFields (fs : List Field) : List (String × JVal) :=
  (fs.filter (fun f => !(f.omitempty && f.value.isEmptyValue))).map (fun f => (f.key, f.value))

/-- The JSON object `WriteJSON` produces for a message, as a key/value list. -/
def Message.encode (m : Message) : List (String × JVal) :=
  marshalFields m.fields

/-- The keys of the encoded object. -/
def Message.encodedKeys (m : Message) : List String :=
  m.encode.map Prod.fst

/-! ## Global state -/

/-- One attempted `WriteJSON` call. -/
structure Write where
  conn : Conn
  msg : Message
  held : Bool
  ok : Bool
deriving DecidableEq, Repr

/-- The package-level variables (lines 19-28) together with the observable history. -/
structure State where
  clients : List Conn
  locked : Bool
  currentMessage : Message
  writes : List Write
  closed : List Conn
deriving DecidableEq, Repr

/-- The state at program start: empty map, free mutex, `currentMessage = Message{}`. -/
def State.init : State := ⟨[], false, Message.zero, [], []⟩

/-- Outcome of a call made by the running task. -/
inductive Result where
  | returned (s : State)
  | blocked (s : State)
deriving DecidableEq, Repr

/-- The state in which a call ended or got stuck. -/
def Result.state : Result → State
  | .returned s => s
  | .blocked s => s

/-- The statement `clients[ws] = true`. -/
def mapInsert (ws : Conn) (m : List Conn) : List Conn :=
  if ws ∈ m then m else m ++ [ws]

/-- The statement `delete(clients, ws)`. -/
def mapDelete (ws : Conn) (m : List Conn) : List Conn :=
  m.filter (fun c => decide (c ≠ ws))

/-- The call `clientsMutex.Lock()` by the running task. -/
def lock (s : State) : Result :=
  if s.locked then .blocked s else .returned { s with locked := true }

/-- The call `clientsMutex.Unlock()`. -/
def unlock (s : State) : State :=
  { s with locked := false }

/-- The function `addClient` (lines 89-93). -/
def addClient (ws : Conn) (s : State) : Result :=
  match lock s with
  | .blocked s1 => .blocked s1
  | .returned s1 => .returned (unlock { s1 with clients := mapInsert ws s1.clients })

/-- The function `removeClient` (lines 95-99). -/
def removeClient (ws : Conn) (s : State) : Result :=
  match lock s with
  | .blocked s1 => .blocked s1
  | .returned s1 => .returned (unlock { s1 with clients := mapDelete ws s1.clients })

/-- The function `sendMessage` (lines 101-108): write, and on error close the connection
and call `removeClient`. -/
def sendMessage (wr : Nat → Conn → Bool) (client : Conn) (msg : Message) (s : State) : Result :=
  let ok := wr s.writes.length client
  let s1 := { s with writes := s.writes ++ [⟨client, msg, s.locked, ok⟩] }
  if ok then .returned s1
  else removeClient client { s1 with closed := s1.closed ++ [client] }

/-- The loop `for client := range clients` of `broadcastMessage` (lines 113-115), run over
the keys present when the loop starts; an entry deleted before it is reached is not
visited, as Go specifies for `range` over a map. -/
def rangeClients (wr : Nat → Conn → Bool) (msg : Message) : List Conn → State → Result
  | [], s => .returned s
  | client :: rest, s =>
    if client ∈ s.clients then
      match sendMessage wr client msg s with
      | .returned s1 => rangeClients wr msg rest s1
      | .blocked s1 => .blocked s1
    else rangeClients wr msg rest s

/-- The function `broadcastMessage` (lines 110-116); the deferred `Unlock` runs when the
loop has finished. -/
def broadcastMessage (wr : Nat → Conn → Bool) (msg : Message) (s : State) : Result :=
  match lock s with
  | .blocked s1 => .blocked s1
  | .returned s1 =>
    match rangeClients wr msg s1.clients s1 with
    | .returned s2 => .returned (unlock s2)
    | .blocked s2 => .blocked s2

/-! ## The connection handler -/

/-- What one `ws.ReadJSON(&msg)` call yields: a decoded message, a close error with code
normal-closure or going-away, or any other error. -/
inductive ReadResult where
  | msg (m : Message)
  | closeErr
  | otherErr
deriving DecidableEq, Repr

/-- The `switch msg.Type` of the receive loop (lines 75-85). -/
def handleMsg (wr : Nat → Conn → Bool) (msg : Message) (s : State) : Result :=
  if msg.type = "message" then
    broadcastMessage wr msg { s with currentMessage := msg }
  else if msg.type = "user-place" then
    broadcastMessage wr msg s
  else .returned s

/-- Outcome of the receive loop. -/
inductive LoopResult where
  | exited (s : State)
  | blocked (s : State)
  | waiting (s : State)
deriving DecidableEq, Repr

/-- The state in which the receive loop ended, got stuck, or waits for input. -/
def LoopResult.state : LoopResult → State
  | .exited s => s
  | .blocked s => s
  | .waiting s => s

/-- The `for` loop of `WebSocketHandler` (lines 63-86): both kinds of read error leave
the loop, a decoded message is dispatched and the loop goes on. -/
def receiveLoop (wr : Nat → Conn → Bool) : List ReadResult → State → LoopResult
  | [], s => .waiting s
  | .closeErr :: _, s => .exited s
  | .otherErr :: _, s => .exited s
  | .msg m :: rest, s =>
    match handleMsg wr m s with
    | .returned s1 => receiveLoop wr rest s1
    | .blocked s1 => .blocked s1

/-- Outcome of `WebSocketHandler`. -/
inductive HResult where
  | returned (s : State)
  | blocked (s : State)
  | waiting (s : State)
deriving DecidableEq, Repr

/-- The state in which the handler returned, got stuck, or waits for input. -/
def HResult.state : HResult → State
  | .returned s => s
  | .blocked s => s
  | .waiting s => s

/-- The call `ws.Close()`. -/
def closeConn (ws : Conn) (s : State) : State :=
  { s with closed := s.closed ++ [ws] }

/-- The function `WebSocketHandler` (lines 48-87).  `upgrade` is the result of
`upgrader.Upgrade`: `none` for an error.  The deferred calls run in reverse order once
the loop is left: `removeClient(ws)`, then `ws.Close()`. -/
def WebSocketHandler (wr : Nat → Conn → Bool) (upgrade : Option Conn)
    (reads : List ReadResult) (s : State) : HResult :=
  match upgrade with
  | none => .returned s
  | some ws =>
    match addClient ws s with
    | .blocked s1 => .blocked s1
    | .returned s1 =>
      match sendMessage wr ws s1.currentMessage s1 with
      | .blocked s2 => .blocked s2
      | .returned s2 =>
        match receiveLoop wr reads s2 with
        | .blocked s3 => .blocked s3
        | .waiting s3 => .waiting s3
        | .exited s3 =>
          match removeClient ws s3 with
          | .blocked s4 => .blocked s4
          | .returned s4 => .returned (closeConn ws s4)

/-! ## Harnesses for sequences of calls -/

/-- A registry call. -/
inductive RegOp where
  | add (ws : Conn)
  | remove (ws : Conn)
deriving DecidableEq, Repr

/-- Run a sequence of `addClient` / `removeClient` calls one after the other. -/
def runOps : List RegOp → State → Result
  | [], s => .returned s
  | .add ws :: rest, s =>
    match addClient ws s with
    | .returned s1 => runOps rest s1
    | .blocked s1 => .blocked s1
  | .remove ws :: rest, s =>
    match removeClient ws s with
    | .returned s1 => runOps rest s1
    | .blocked s1 => .blocked s1

/-- The membership set the specification assigns to a call sequence: `add` is
set-insert, `remove` is set-delete. -/
def specMembers : List RegOp → Finset Conn → Finset Conn
  | [], acc => acc
  | .add ws :: rest, acc => specMembers rest (insert ws acc)
  | .remove ws :: rest, acc => specMembers rest (acc.erase ws)

/-- The messages written to connection `c`, in order. -/
def sentTo (c : Conn) (ws : List Write) : List Message :=
  (ws.filter (fun x => decide (x.conn = c))).map Write.msg

/-- Sequencing of calls: the second runs in the state the first returned. -/
def Result.andThen (r : Result) (f : State → Result) : Result :=
  match r with
  | .returned s => f s
  | .blocked s => .blocked s

/-- A stretch of one handler that runs without another task in between: the registration
(line 57), the replay of `currentMessage` (line 61), the dispatch of one decoded message
(lines 75-85), the deferred calls on leaving (lines 54 and 58).  The dispatch of a chat
message is itself two steps, and another task may run between them: the assignment
`currentMessage = msg` (line 78), made without the mutex, and the call
`broadcastMessage(msg)` (lines 79 and 82).  The mutex is free whenever a stretch has
returned, so stretches of different handlers may follow each other in any order that
keeps each handler's own order. -/
inductive Seg where
  | register (ws : Conn)
  | replay (ws : Conn)
  | dispatch (m : Message)
  | store (m : Message)
  | broadcast (m : Message)
  | leave (ws : Conn)
deriving DecidableEq, Repr

/-- Run one stretch. -/
def runSeg (wr : Nat → Conn → Bool) : Seg → State → Result
  | .register ws, s => addClient ws s
  | .replay ws, s => sendMessage wr ws s.currentMessage s
  | .dispatch m, s => handleMsg wr m s
  | .store m, s => .returned { s with currentMessage := m }
  | .broadcast m, s => broadcastMessage wr m s
  | .leave ws, s => (removeClient ws s).andThen (fun s1 => .returned (closeConn ws s1))

/-- Run a schedule of stretches, stopping at the first one that never returns. -/
def runSegs (wr : Nat → Conn → Bool) : List Seg → State → Result
  | [], s => .returned s
  | g :: rest, s => (runSeg wr g s).andThen (runSegs wr rest)

/-- A call outcome read as a handler outcome. -/
def HResult.ofResult : Result → HResult
  | .returned s => .returned s
  | .blocked s => .blocked s

/-! ## Basic facts about the registry calls -/

theorem mem_mapInsert (ws c : Conn) (m : List Conn) :
    c ∈ mapInsert ws m ↔ c = ws ∨ c ∈ m := by
  unfold mapInsert
  by_cases h : ws ∈ m
  · simp only [h, if_true]
    constructor
    · intro hc; exact Or.inr hc
    · rintro (rfl | hc)
      · exact h
      · exact hc
  · simp only [h, if_false, List.mem_append, List.mem_singleton]
    tauto

theorem mem_mapDelete (ws c : Conn) (m : List Conn) :
    c ∈ mapDelete ws m ↔ c ≠ ws ∧ c ∈ m := by
  unfold mapDelete
  simp only [List.mem_filter, decide_eq_true_eq]
  tauto

theorem nodup_mapInsert (ws : Conn) (m : List Conn) (h : m.Nodup) :
    (mapInsert ws m).Nodup := by
  unfold mapInsert
  by_cases hm : ws ∈ m
  · simpa [hm] using h
  · simp only [hm, if_false]
    rw [List.nodup_append]
    refine ⟨h, List.nodup_singleton ws, ?_⟩
    intro a ha hb
    rw [List.mem_singleton] at hb
    exact hm (hb ▸ ha)

theorem nodup_mapDelete (ws : Conn) (m : List Conn) (h : m.Nodup) :
    (mapDelete ws m).Nodup := by
  unfold mapDelete
  exact h.filter _

theorem mapDelete_of_not_mem (ws : Conn) (m : List Conn) (h : ws ∉ m) :
    mapDelete ws m = m := by
  unfold mapDelete
  rw [List.filter_eq_self]
  intro a ha
  simp only [decide_eq_true_eq]
  rintro rfl
  exact h ha

theorem addClient_unlocked (ws : Conn) (s : State) (h : s.locked = false) :
    addClient ws s = .returned { s with clients := mapInsert ws s.clients } := by
  cases s
  simp only at h
  subst h
  rfl

theorem removeClient_unlocked (ws : Conn) (s : State) (h : s.locked = false) :
    removeClient ws s = .returned { s with clients := mapDelete ws s.clients } := by
  cases s
  simp only at h
  subst h
  rfl

theorem removeClient_locked (ws : Conn) (s : State) (h : s.locked = true) :
    removeClient ws s = .blocked s := by
  cases s
  simp only at h
  subst h
  rfl

theorem addClient_locked (ws : Conn) (s : State) (h : s.locked = true) :
    addClient ws s = .blocked s := by
  cases s
  simp only at h
  subst h
  rfl

/-! ## Sending while the mutex is held or free -/

theorem sendMessage_ok (wr : Nat → Conn → Bool) (c : Conn) (msg : Message) (s : State)
    (h : wr s.writes.length c = true) :
    sendMessage wr c msg s
      = .returned { s with writes := s.writes ++ [⟨c, msg, s.locked, true⟩] } := by
  unfold sendMessage
  simp only [h, if_true]

theorem sendMessage_fail_locked (wr : Nat → Conn → Bool) (c : Conn) (msg : Message)
    (s : State) (h : wr s.writes.length c = false) (hl : s.locked = true) :
    sendMessage wr c msg s
      = .blocked { s with writes := s.writes ++ [⟨c, msg, true, false⟩],
                          closed := s.closed ++ [c] } := by
  unfold sendMessage
  simp only [h, hl]
  rw [removeClient_locked _ _ rfl]
  simp

theorem sendMessage_fail_unlocked (wr : Nat → Conn → Bool) (c : Conn) (msg : Message)
    (s : State) (h : wr s.writes.length c = false) (hl : s.locked = false) :
    sendMessage wr c msg s
      = .returned { s with writes := s.writes ++ [⟨c, msg, false, false⟩],
                           closed := s.closed ++ [c],
                           clients := mapDelete c s.clients } := by
  unfold sendMessage
  simp only [h, hl]
  rw [removeClient_unlocked _ _ rfl]
  simp

/-- What a send does in every case: exactly one write is recorded, carrying the lock
status of the moment; the mutex status and `currentMessage` stay as they were. -/
theorem sendMessage_frame (wr : Nat → Conn → Bool) (c : Conn) (msg : Message) (s : State) :
    (sendMessage wr c msg s).state.locked = s.locked ∧
    (sendMessage wr c msg s).state.currentMessage = s.currentMessage ∧
    (sendMessage wr c msg s).state.writes
      = s.writes ++ [⟨c, msg, s.locked, wr s.writes.length c⟩] ∧
    (s.locked = true → (sendMessage wr c msg s).state.clients = s.clients) := by
  cases hw : wr s.writes.length c
  · cases hl : s.locked
    · rw [sendMessage_fail_unlocked wr c msg s hw hl]
      simp [Result.state, hl]
    · rw [sendMessage_fail_locked wr c msg s hw hl]
      simp [Result.state, hl]
  · rw [sendMessage_ok wr c msg s hw]
    simp [Result.state]

/-! ## The fan-out loop -/

/-- Under the held mutex the loop never changes the map, and every write it makes is
made with the mutex held. -/
theorem rangeClients_frame (wr : Nat → Conn → Bool) (msg : Message) :
    ∀ (l : List Conn) (s : State), s.locked = true →
      (rangeClients wr msg l s).state.locked = true ∧
      (rangeClients wr msg l s).state.clients = s.clients ∧
      (rangeClients wr msg l s).state.currentMessage = s.currentMessage ∧
      ∃ new, (rangeClients wr msg l s).state.writes = s.writes ++ new ∧
        ∀ x ∈ new, x.held = true ∧ x.msg = msg ∧ x.conn ∈ l := by
  intro l
  induction l with
  | nil =>
    intro s hl
    exact ⟨hl, rfl, rfl, [], by simp [rangeClients, Result.state], by simp⟩
  | cons c rest ih =>
    intro s hl
    unfold rangeClients
    by_cases hc : c ∈ s.clients
    · simp only [hc, if_true]
      cases hw : wr s.writes.length c
      · rw [sendMessage_fail_locked wr c msg s hw hl]
        refine ⟨hl, rfl, rfl, [⟨c, msg, true, false⟩], rfl, ?_⟩
        intro x hx
        rw [List.mem_singleton] at hx
        subst hx
        simp
      · rw [sendMessage_ok wr c msg s hw]
        simp only
        obtain ⟨h1, h2, h3, new, h4, h5⟩ :=
          ih { s with writes := s.writes ++ [⟨c, msg, s.locked, true⟩] } hl
        refine ⟨h1, h2, h3, ⟨c, msg, s.locked, true⟩ :: new, ?_, ?_⟩
        · rw [h4]; simp
        · intro x hx
          rcases List.mem_cons.mp hx with rfl | hx
          · simp [hl]
          · obtain ⟨a, b, d⟩ := h5 x hx
            exact ⟨a, b, List.mem_cons_of_mem _ d⟩
    · simp only [hc, if_false]
      obtain ⟨h1, h2, h3, new, h4, h5⟩ := ih s hl
      refine ⟨h1, h2, h3, new, h4, ?_⟩
      intro x hx
      obtain ⟨a, b, d⟩ := h5 x hx
      exact ⟨a, b, List.mem_cons_of_mem _ d⟩

/-- When every write from now on succeeds the loop writes once to each key, in visiting
order. -/
theorem rangeClients_all_ok (wr : Nat → Conn → Bool) (msg : Message) :
    ∀ (l : List Conn) (s : State), s.locked = true → (∀ c ∈ l, c ∈ s.clients) →
      (∀ n, s.writes.length ≤ n → ∀ c ∈ l, wr n c = true) →
      rangeClients wr msg l s
        = .returned { s with writes := s.writes ++ l.map (fun c => ⟨c, msg, true, true⟩) } := by
  intro l
  induction l with
  | nil => intro s _ _ _; simp [rangeClients]
  | cons c rest ih =>
    intro s hl hsub hok
    unfold rangeClients
    have hc : c ∈ s.clients := hsub c (List.mem_cons_self _ _)
    simp only [hc, if_true]
    rw [sendMessage_ok wr c msg s (hok _ (Nat.le_refl _) c (List.mem_cons_self _ _))]
    simp only
    rw [ih { s with writes := s.writes ++ [⟨c, msg, s.locked, true⟩] } hl
      (fun d hd => hsub d (List.mem_cons_of_mem _ hd))
      (fun n hn d hd => hok n (by
        simp only [List.length_append, List.length_singleton] at hn
        omega) d (List.mem_cons_of_mem _ hd))]
    simp [hl]

/-- A registered key whose write fails stops the loop for good: the failing send calls
`removeClient`, which waits for the mutex the loop itself holds. -/
theorem rangeClients_blocks (wr : Nat → Conn → Bool) (msg : Message) (K : Conn)
    (hf : ∀ n, wr n K = false) :
    ∀ (l : List Conn) (s : State), s.locked = true → K ∈ l → K ∈ s.clients →
      ∃ s1, rangeClients wr msg l s = .blocked s1 := by
  intro l
  induction l with
  | nil => intro s _ hK; simp at hK
  | cons c rest ih =>
    intro s hl hK hKs
    unfold rangeClients
    by_cases hc : c ∈ s.clients
    · simp only [hc, if_true]
      cases hw : wr s.writes.length c
      · rw [sendMessage_fail_locked wr c msg s hw hl]
        exact ⟨_, rfl⟩
      · rw [sendMessage_ok wr c msg s hw]
        simp only
        have hne : K ≠ c := by
          rintro rfl
          rw [hf] at hw
          exact Bool.noConfusion hw
        have hK2 : K ∈ rest := by
          rcases List.mem_cons.mp hK with h | h
          · exact absurd h hne
          · exact h
        exact ih _ hl hK2 hKs
    · simp only [hc, if_false]
      have hK2 : K ∈ rest := by
        rcases List.mem_cons.mp hK with h | h
        · exact absurd (h ▸ hKs) hc
        · exact h
      exact ih s hl hK2 hKs

/-! ## `broadcastMessage` -/

theorem broadcastMessage_locked (wr : Nat → Conn → Bool) (msg : Message) (s : State)
    (hl : s.locked = true) : broadcastMessage wr msg s = .blocked s := by
  unfold broadcastMessage lock
  simp [hl]

theorem broadcastMessage_unlocked (wr : Nat → Conn → Bool) (msg : Message) (s : State)
    (hl : s.locked = false) :
    broadcastMessage wr msg s =
      match rangeClients wr msg s.clients { s with locked := true } with
      | .returned s2 => .returned (unlock s2)
      | .blocked s2 => .blocked s2 := by
  unfold broadcastMessage lock
  simp [hl]

/-- With every write succeeding, a broadcast returns, having written the message once to
each registered connection while holding the mutex, and changes nothing else. -/
theorem broadcastMessage_all_ok (wr : Nat → Conn → Bool) (msg : Message) (s : State)
    (hl : s.locked = false)
    (hok : ∀ n, s.writes.length ≤ n → ∀ c ∈ s.clients, wr n c = true) :
    broadcastMessage wr msg s
      = .returned { s with writes := s.writes ++ s.clients.map (fun c => ⟨c, msg, true, true⟩) } := by
  rw [broadcastMessage_unlocked wr msg s hl]
  rw [rangeClients_all_ok wr msg s.clients { s with locked := true } rfl (fun c hc => hc) hok]
  simp [unlock, hl]

/-- A broadcast over a registry holding a connection whose write fails never returns. -/
theorem broadcastMessage_blocks (wr : Nat → Conn → Bool) (msg : Message) (s : State)
    (K : Conn) (hl : s.locked = false) (hK : K ∈ s.clients) (hf : ∀ n, wr n K = false) :
    ∃ s1, broadcastMessage wr msg s = .blocked s1 := by
  rw [broadcastMessage_unlocked wr msg s hl]
  obtain ⟨s1, h1⟩ :=
    rangeClients_blocks wr msg K hf s.clients { s with locked := true } rfl hK hK
  rw [h1]
  exact ⟨s1, rfl⟩

/-- What a broadcast does in every case: the map and `currentMessage` are untouched, the
writes made are writes of `msg` to registered connections with the mutex held, and if it
returns the mutex is free. -/
theorem broadcastMessage_frame (wr : Nat → Conn → Bool) (msg : Message) (s : State) :
    (broadcastMessage wr msg s).state.clients = s.clients ∧
    (broadcastMessage wr msg s).state.currentMessage = s.currentMessage ∧
    (∃ new, (broadcastMessage wr msg s).state.writes = s.writes ++ new ∧
      ∀ x ∈ new, x.held = true ∧ x.msg = msg ∧ x.conn ∈ s.clients) ∧
    (∀ s1, broadcastMessage wr msg s = .returned s1 → s1.locked = false) := by
  cases hl : s.locked
  · rw [broadcastMessage_unlocked wr msg s hl]
    obtain ⟨h1, h2, h3, new, h4, h5⟩ :=
      rangeClients_frame wr msg s.clients { s with locked := true } rfl
    cases hr : rangeClients wr msg s.clients { s with locked := true } with
    | returned s2 =>
      rw [hr] at h1 h2 h3 h4
      simp only [Result.state] at h1 h2 h3 h4
      refine ⟨h2, h3, ⟨new, h4, h5⟩, ?_⟩
      intro s1 hs1
      simp only [Result.returned.injEq] at hs1
      rw [← hs1]
      rfl
    | blocked s2 =>
      rw [hr] at h1 h2 h3 h4
      simp only [Result.state] at h1 h2 h3 h4
      refine ⟨h2, h3, ⟨new, h4, h5⟩, ?_⟩
      intro s1 hs1
      exact Result.noConfusion hs1
  · rw [broadcastMessage_locked wr msg s hl]
    refine ⟨rfl, rfl, ⟨[], by simp [Result.state], by simp⟩, ?_⟩
    intro s1 hs1
    exact Result.noConfusion hs1

/-! ## Dispatch, the receive loop and the handler -/

theorem addClient_writes (ws : Conn) (s : State) :
    (addClient ws s).state.writes = s.writes := by
  cases hl : s.locked
  · rw [addClient_unlocked ws s hl]; rfl
  · rw [addClient_locked ws s hl]; rfl

theorem removeClient_writes (ws : Conn) (s : State) :
    (removeClient ws s).state.writes = s.writes := by
  cases hl : s.locked
  · rw [removeClient_unlocked ws s hl]; rfl
  · rw [removeClient_locked ws s hl]; rfl

theorem removeClient_returned (ws : Conn) (s s1 : State)
    (h : removeClient ws s = .returned s1) :
    s.locked = false ∧ s1 = { s with clients := mapDelete ws s.clients } := by
  cases hl : s.locked
  · rw [removeClient_unlocked ws s hl] at h
    simp only [Result.returned.injEq] at h
    refine ⟨rfl, ?_⟩
    rw [← h, hl]
  · rw [removeClient_locked ws s hl] at h
    exact Result.noConfusion h

/-- What the dispatch of one message does in every case. -/
theorem handleMsg_frame (wr : Nat → Conn → Bool) (m : Message) (s : State) :
    (handleMsg wr m s).state.clients = s.clients ∧
    (∃ new, (handleMsg wr m s).state.writes = s.writes ++ new ∧
      ∀ x ∈ new, x.held = true ∧ x.msg = m ∧ x.conn ∈ s.clients) ∧
    (∀ s1, handleMsg wr m s = .returned s1 → s.locked = false → s1.locked = false) ∧
    (m.type = "message" → (handleMsg wr m s).state.currentMessage = m) ∧
    (m.type ≠ "message" → (handleMsg wr m s).state.currentMessage = s.currentMessage) := by
  unfold handleMsg
  by_cases h1 : m.type = "message"
  · rw [if_pos h1]
    obtain ⟨a, b, c, d⟩ := broadcastMessage_frame wr m { s with currentMessage := m }
    refine ⟨a, c, fun s1 hs1 _ => d s1 hs1, fun _ => b, fun hne => absurd h1 hne⟩
  · rw [if_neg h1]
    by_cases h2 : m.type = "user-place"
    · rw [if_pos h2]
      obtain ⟨a, b, c, d⟩ := broadcastMessage_frame wr m s
      exact ⟨a, c, fun s1 hs1 _ => d s1 hs1, fun h => absurd h h1, fun _ => b⟩
    · rw [if_neg h2]
      refine ⟨rfl, ⟨[], by simp [Result.state], by simp⟩, ?_, fun h => absurd h h1, fun _ => rfl⟩
      intro s1 hs1 hl
      simp only [Result.returned.injEq] at hs1
      rw [← hs1]; exact hl

/-- The receive loop only appends writes, and leaves the mutex free whenever it does not
get stuck. -/
theorem receiveLoop_frame (wr : Nat → Conn → Bool) :
    ∀ (reads : List ReadResult) (s : State),
      (∃ new, (receiveLoop wr reads s).state.writes = s.writes ++ new) ∧
      (s.locked = false → ∀ s1, (receiveLoop wr reads s = .exited s1 ∨
        receiveLoop wr reads s = .waiting s1) → s1.locked = false) := by
  intro reads
  induction reads with
  | nil =>
    intro s
    refine ⟨⟨[], by simp [receiveLoop, LoopResult.state]⟩, ?_⟩
    intro hl s1 h
    simp only [receiveLoop] at h
    rcases h with h | h
    · exact LoopResult.noConfusion h
    · simp only [LoopResult.waiting.injEq] at h
      rw [← h]; exact hl
  | cons r rest ih =>
    intro s
    cases r with
    | closeErr =>
      refine ⟨⟨[], by simp [receiveLoop, LoopResult.state]⟩, ?_⟩
      intro hl s1 h
      simp only [receiveLoop] at h
      rcases h with h | h
      · simp only [LoopResult.exited.injEq] at h
        rw [← h]; exact hl
      · exact LoopResult.noConfusion h
    | otherErr =>
      refine ⟨⟨[], by simp [receiveLoop, LoopResult.state]⟩, ?_⟩
      intro hl s1 h
      simp only [receiveLoop] at h
      rcases h with h | h
      · simp only [LoopResult.exited.injEq] at h
        rw [← h]; exact hl
      · exact LoopResult.noConfusion h
    | msg m =>
      obtain ⟨_, ⟨new, hw, _⟩, hlk, _, _⟩ := handleMsg_frame wr m s
      unfold receiveLoop
      cases hh : handleMsg wr m s with
      | blocked s2 =>
        rw [hh] at hw
        refine ⟨⟨new, hw⟩, ?_⟩
        intro _ s1 h
        simp at h
      | returned s2 =>
        rw [hh] at hw
        simp only [Result.state] at hw
        simp only
        obtain ⟨⟨new2, hw2⟩, hl2⟩ := ih s2
        refine ⟨⟨new ++ new2, ?_⟩, ?_⟩
        · rw [hw2, hw, List.append_assoc]
        · intro hl s1 h
          exact hl2 (hlk s2 hh hl) s1 h

/-- A handler that starts with the mutex free first registers the connection and then
writes the value `currentMessage` has at that moment to it, with the mutex free; all
its other writes come later. -/
theorem handler_replays_first (wr : Nat → Conn → Bool) (ws : Conn)
    (reads : List ReadResult) (s : State) (hl : s.locked = false) :
    ∃ ok tail, (WebSocketHandler wr (some ws) reads s).state.writes
      = s.writes ++ ⟨ws, s.currentMessage, false, ok⟩ :: tail := by
  obtain ⟨cl, lk, cm, wrs, clo⟩ := s
  simp only at hl
  subst hl
  refine ⟨wr wrs.length ws, ?_⟩
  unfold WebSocketHandler
  simp only
  rw [addClient_unlocked ws _ rfl]
  simp only
  obtain ⟨_, _, hw, _⟩ := sendMessage_frame wr ws cm ⟨mapInsert ws cl, false, cm, wrs, clo⟩
  cases hsend : sendMessage wr ws cm ⟨mapInsert ws cl, false, cm, wrs, clo⟩ with
  | blocked s2 =>
    rw [hsend] at hw
    simp only [Result.state] at hw
    exact ⟨[], by simp [HResult.state, hw]⟩
  | returned s2 =>
    rw [hsend] at hw
    simp only [Result.state] at hw
    simp only
    obtain ⟨⟨new, hn⟩, _⟩ := receiveLoop_frame wr reads s2
    cases hloop : receiveLoop wr reads s2 with
    | blocked s3 =>
      rw [hloop] at hn
      simp only [LoopResult.state] at hn
      exact ⟨new, by simp [HResult.state, hn, hw]⟩
    | waiting s3 =>
      rw [hloop] at hn
      simp only [LoopResult.state] at hn
      exact ⟨new, by simp [HResult.state, hn, hw]⟩
    | exited s3 =>
      rw [hloop] at hn
      simp only [LoopResult.state] at hn
      simp only
      have hr := removeClient_writes ws s3
      cases hrem : removeClient ws s3 with
      | blocked s4 =>
        rw [hrem] at hr
        simp only [Result.state] at hr
        exact ⟨new, by simp [HResult.state, hr, hn, hw]⟩
      | returned s4 =>
        rw [hrem] at hr
        simp only [Result.state] at hr
        exact ⟨new, by simp [HResult.state, closeConn, hr, hn, hw]⟩

/-! ## Registry call sequences -/

theorem toFinset_mapInsert (ws : Conn) (m : List Conn) :
    (mapInsert ws m).toFinset = insert ws m.toFinset := by
  ext c
  rw [List.mem_toFinset, mem_mapInsert, Finset.mem_insert, List.mem_toFinset]

theorem toFinset_mapDelete (ws : Conn) (m : List Conn) :
    (mapDelete ws m).toFinset = m.toFinset.erase ws := by
  ext c
  rw [List.mem_toFinset, mem_mapDelete, Finset.mem_erase, List.mem_toFinset]

/-- A sequence of registry calls started with the mutex free always returns, and the keys
of the map follow the set semantics of the calls. -/
theorem runOps_spec :
    ∀ (ops : List RegOp) (s : State), s.locked = false →
      ∃ s1, runOps ops s = .returned s1 ∧
        s1.clients.toFinset = specMembers ops s.clients.toFinset ∧
        (s.clients.Nodup → s1.clients.Nodup) ∧ s1.locked = false := by
  intro ops
  induction ops with
  | nil => intro s hl; exact ⟨s, rfl, rfl, id, hl⟩
  | cons op rest ih =>
    intro s hl
    cases op with
    | add ws =>
      obtain ⟨s1, h1, h2, h3, h4⟩ := ih { s with clients := mapInsert ws s.clients } hl
      refine ⟨s1, ?_, ?_, ?_, h4⟩
      · simp only [runOps, addClient_unlocked ws s hl]
        exact h1
      · rw [h2]
        simp only [specMembers, toFinset_mapInsert]
      · intro hn
        exact h3 (nodup_mapInsert ws s.clients hn)
    | remove ws =>
      obtain ⟨s1, h1, h2, h3, h4⟩ := ih { s with clients := mapDelete ws s.clients } hl
      refine ⟨s1, ?_, ?_, ?_, h4⟩
      · simp only [runOps, removeClient_unlocked ws s hl]
        exact h1
      · rw [h2]
        simp only [specMembers, toFinset_mapDelete]
      · intro hn
        exact h3 (nodup_mapDelete ws s.clients hn)

/-! ## When the handler returns -/

/-- With the mutex free and every write from now on succeeding, a dispatch returns. -/
theorem handleMsg_all_ok (wr : Nat → Conn → Bool) (m : Message) (s : State)
    (hl : s.locked = false) (hok : ∀ n, s.writes.length ≤ n → ∀ c, wr n c = true) :
    ∃ s1, handleMsg wr m s = .returned s1 ∧ s1.locked = false ∧
      s.writes.length ≤ s1.writes.length := by
  unfold handleMsg
  by_cases h1 : m.type = "message"
  · rw [if_pos h1]
    rw [broadcastMessage_all_ok wr m { s with currentMessage := m } hl
      (fun n hn c _ => hok n hn c)]
    exact ⟨_, rfl, hl, by simp⟩
  · rw [if_neg h1]
    by_cases h2 : m.type = "user-place"
    · rw [if_pos h2]
      rw [broadcastMessage_all_ok wr m s hl (fun n hn c _ => hok n hn c)]
      exact ⟨_, rfl, hl, by simp⟩
    · rw [if_neg h2]
      exact ⟨s, rfl, hl, Nat.le_refl _⟩

/-- With the mutex free and every write from now on succeeding, the receive loop is left
as soon as a read fails. -/
theorem receiveLoop_exits (wr : Nat → Conn → Bool) :
    ∀ (reads : List ReadResult) (s : State), s.locked = false →
      (∀ n, s.writes.length ≤ n → ∀ c, wr n c = true) →
      (.closeErr ∈ reads ∨ .otherErr ∈ reads) →
      ∃ s1, receiveLoop wr reads s = .exited s1 ∧ s1.locked = false := by
  intro reads
  induction reads with
  | nil => intro s _ _ h; simp at h
  | cons r rest ih =>
    intro s hl hok h
    cases r with
    | closeErr => exact ⟨s, rfl, hl⟩
    | otherErr => exact ⟨s, rfl, hl⟩
    | msg m =>
      obtain ⟨s1, h1, h2, h3⟩ := handleMsg_all_ok wr m s hl hok
      have h4 : .closeErr ∈ rest ∨ .otherErr ∈ rest := by
        rcases h with h | h
        · exact Or.inl (by simpa using h)
        · exact Or.inr (by simpa using h)
      obtain ⟨s2, h5, h6⟩ := ih s1 h2 (fun n hn c => hok n (Nat.le_trans h3 hn) c) h4
      refine ⟨s2, ?_, h6⟩
      simp only [receiveLoop, h1]
      exact h5

/-- Started with the mutex free, the handler returns once a read fails, whatever the
outcome of the replay write, provided every later write succeeds. -/
theorem handler_returns (wr : Nat → Conn → Bool) (ws : Conn) (reads : List ReadResult)
    (s : State) (hl : s.locked = false)
    (hok : ∀ n, s.writes.length < n → ∀ c, wr n c = true)
    (herr : .closeErr ∈ reads ∨ .otherErr ∈ reads) :
    ∃ s1, WebSocketHandler wr (some ws) reads s = .returned s1 := by
  obtain ⟨cl, lk, cm, wrs, clo⟩ := s
  simp only at hl hok
  subst hl
  unfold WebSocketHandler
  simp only
  rw [addClient_unlocked ws _ rfl]
  simp only
  obtain ⟨hlk, _, hw, _⟩ := sendMessage_frame wr ws cm ⟨mapInsert ws cl, false, cm, wrs, clo⟩
  cases hsend : sendMessage wr ws cm ⟨mapInsert ws cl, false, cm, wrs, clo⟩ with
  | blocked s2 =>
    exfalso
    cases hwr : wr wrs.length ws
    · rw [sendMessage_fail_unlocked wr ws cm _ hwr rfl] at hsend
      exact Result.noConfusion hsend
    · rw [sendMessage_ok wr ws cm _ hwr] at hsend
      exact Result.noConfusion hsend
  | returned s2 =>
    rw [hsend] at hw hlk
    simp only [Result.state] at hw hlk
    simp only
    obtain ⟨s3, h3, h4⟩ := receiveLoop_exits wr reads s2 hlk
      (fun n hn c => hok n (by rw [hw] at hn; simp at hn; omega) c) herr
    rw [h3]
    simp only
    rw [removeClient_unlocked ws s3 h4]
    exact ⟨_, rfl⟩

/-! ## The handler as a schedule of stretches -/

theorem runSegs_append (wr : Nat → Conn → Bool) :
    ∀ (a b : List Seg) (s : State),
      runSegs wr (a ++ b) s = (runSegs wr a s).andThen (runSegs wr b) := by
  intro a
  induction a with
  | nil => intro b s; rfl
  | cons g rest ih =>
    intro b s
    simp only [List.cons_append, runSegs]
    cases runSeg wr g s with
    | returned s1 => simp only [Result.andThen]; exact ih b s1
    | blocked s1 => rfl

/-- Reading the messages `ms` and then an error is the schedule of their dispatches. -/
theorem receiveLoop_as_schedule (wr : Nat → Conn → Bool) (e : ReadResult)
    (he : e = .closeErr ∨ e = .otherErr) (rest : List ReadResult) :
    ∀ (ms : List Message) (s : State),
      receiveLoop wr (ms.map ReadResult.msg ++ e :: rest) s =
        match runSegs wr (ms.map Seg.dispatch) s with
        | .returned s1 => .exited s1
        | .blocked s1 => .blocked s1 := by
  intro ms
  induction ms with
  | nil =>
    intro s
    rcases he with rfl | rfl <;> rfl
  | cons m tl ih =>
    intro s
    simp only [List.map_cons, List.cons_append, receiveLoop, runSegs, runSeg]
    cases handleMsg wr m s with
    | returned s1 => simp only [Result.andThen]; exact ih s1
    | blocked s1 => rfl

/-- One handler run alone, reading the messages `ms` and then an error, is the schedule
register, replay, one dispatch per message, leave. -/
theorem handler_as_schedule (wr : Nat → Conn → Bool) (ws : Conn) (ms : List Message)
    (e : ReadResult) (he : e = .closeErr ∨ e = .otherErr) (rest : List ReadResult)
    (s : State) :
    WebSocketHandler wr (some ws) (ms.map ReadResult.msg ++ e :: rest) s =
      HResult.ofResult
        (runSegs wr (.register ws :: .replay ws :: (ms.map Seg.dispatch ++ [.leave ws])) s) := by
  unfold WebSocketHandler
  simp only [runSegs, runSeg]
  cases addClient ws s with
  | blocked s1 => rfl
  | returned s1 =>
    simp only [Result.andThen]
    cases sendMessage wr ws s1.currentMessage s1 with
    | blocked s2 => rfl
    | returned s2 =>
      simp only
      rw [receiveLoop_as_schedule wr e he rest ms s2, runSegs_append]
      cases runSegs wr (ms.map Seg.dispatch) s2 with
      | blocked s3 => rfl
      | returned s3 =>
        simp only [Result.andThen, runSegs, runSeg]
        cases removeClient ws s3 with
        | blocked s4 => rfl
        | returned s4 => rfl

/-! ## Schedules of several handlers -/

/-- The dispatch of a chat message is the assignment followed by the broadcast, and the
dispatch of a cursor message is the broadcast alone. -/
theorem dispatch_as_store_broadcast (wr : Nat → Conn → Bool) (m : Message) (s : State) :
    (m.type = "message" →
      runSeg wr (.dispatch m) s = runSegs wr [.store m, .broadcast m] s) ∧
    (m.type = "user-place" → runSeg wr (.dispatch m) s = runSeg wr (.broadcast m) s) := by
  constructor
  · intro h
    simp only [runSeg, runSegs, Result.andThen, handleMsg, if_pos h]
    cases broadcastMessage wr m { s with currentMessage := m } <;> rfl
  · intro h
    have h1 : m.type ≠ "message" := by rw [h]; decide
    simp only [runSeg, handleMsg, if_neg h1, if_pos h]

/-- An assignment of `currentMessage` by another handler between the registration and
the replay of a joining connection replaces the replayed message, also when no
broadcast falls between the two: here connection 5 is replayed "bye" and not "hello". -/
theorem store_precedes_replay :
    sentTo 5 (runSegs (fun _ _ => true)
        [.dispatch ⟨"message", "hello", 0, 0⟩, .register 5,
         .store ⟨"message", "bye", 0, 0⟩, .replay 5, .broadcast ⟨"message", "bye", 0, 0⟩]
        ⟨[1], false, Message.zero, [], []⟩).state.writes
      = [⟨"message", "bye", 0, 0⟩, ⟨"message", "bye", 0, 0⟩] := by
  decide

/-! ## The claims -/

/-- C1 (code defect): with registry {1, 2, 3} and the write to connection 2 failing,
`broadcastMessage` never returns: after the failed write `sendMessage` calls
`removeClient`, which waits for the mutex `broadcastMessage` holds.  Connection 3 is never
written to, connection 2 is still registered and the mutex stays held. -/
theorem broadcast_stuck_on_failed_send :
    broadcastMessage (fun _ c => decide (c ≠ 2)) ⟨"message", "hi", 0, 0⟩
        ⟨[1, 2, 3], false, Message.zero, [], []⟩
      = .blocked ⟨[1, 2, 3], true, Message.zero,
          [⟨1, ⟨"message", "hi", 0, 0⟩, true, true⟩, ⟨2, ⟨"message", "hi", 0, 0⟩, true, false⟩],
          [2]⟩ := by
  decide

/-- C2 (code defect): a single client connects, is replayed the empty message, sends a
chat message, and the write of the echo to it fails.  The handler then calls
`clientsMutex.Lock()` (in `removeClient`) while holding the mutex (taken in
`broadcastMessage`) and never returns; the mutex is never released. -/
theorem handler_relocks_held_mutex :
    WebSocketHandler (fun n _ => decide (n = 0)) (some 1)
        [.msg ⟨"message", "hi", 0, 0⟩, .closeErr] State.init
      = .blocked ⟨[1], true, ⟨"message", "hi", 0, 0⟩,
          [⟨1, Message.zero, false, true⟩, ⟨1, ⟨"message", "hi", 0, 0⟩, true, false⟩],
          [1]⟩ := by
  decide

/-- C3 (counterexample): connections 3 and 4 are registered, connection 1 joins and sends
the chat message "again"; every write succeeds.  The message is written to 3, to 4 and
to the sender 1 itself. -/
theorem sender_receives_own_message :
    (WebSocketHandler (fun _ _ => true) (some 1)
        [.msg ⟨"message", "again", 0, 0⟩, .closeErr]
        ⟨[3, 4], false, ⟨"message", "hello", 0, 0⟩, [], []⟩).state.writes
      = [⟨1, ⟨"message", "hello", 0, 0⟩, false, true⟩,
         ⟨3, ⟨"message", "again", 0, 0⟩, true, true⟩,
         ⟨4, ⟨"message", "again", 0, 0⟩, true, true⟩,
         ⟨1, ⟨"message", "again", 0, 0⟩, true, true⟩] ∧
    sentTo 1 (WebSocketHandler (fun _ _ => true) (some 1)
        [.msg ⟨"message", "again", 0, 0⟩, .closeErr]
        ⟨[3, 4], false, ⟨"message", "hello", 0, 0⟩, [], []⟩).state.writes
      = [⟨"message", "hello", 0, 0⟩, ⟨"message", "again", 0, 0⟩] := by
  decide

/-- C3 (amended): when a message of type "message" or "user-place" is dispatched with the
mutex free and every write from then on to a registered connection succeeds, the
dispatch returns,
the registry is unchanged, and the message has been written exactly once to every
registered connection, the sender included when it is registered. -/
theorem dispatch_reaches_every_client (wr : Nat → Conn → Bool) (m : Message) (s : State)
    (ht : m.type = "message" ∨ m.type = "user-place") (hl : s.locked = false)
    (hok : ∀ n, s.writes.length ≤ n → ∀ c ∈ s.clients, wr n c = true) :
    ∃ s1, handleMsg wr m s = .returned s1 ∧ s1.clients = s.clients ∧
      s1.writes = s.writes ++ s.clients.map (fun c => ⟨c, m, true, true⟩) ∧
      ∀ sender ∈ s.clients, (⟨sender, m, true, true⟩ : Write) ∈ s1.writes := by
  have key : ∀ t : State, t.locked = false → t.clients = s.clients → t.writes = s.writes →
      ∃ s1, broadcastMessage wr m t = .returned s1 ∧ s1.clients = s.clients ∧
        s1.writes = s.writes ++ s.clients.map (fun c => ⟨c, m, true, true⟩) ∧
        ∀ sender ∈ s.clients, (⟨sender, m, true, true⟩ : Write) ∈ s1.writes := by
    intro t htl htc htw
    refine ⟨_, broadcastMessage_all_ok wr m t htl (by rw [htc, htw]; exact hok), htc, ?_, ?_⟩
    · simp only [htc, htw]
    · intro sender hs
      simp only [htc, htw, List.mem_append, List.mem_map]
      exact Or.inr ⟨sender, hs, rfl⟩
  unfold handleMsg
  by_cases h1 : m.type = "message"
  · rw [if_pos h1]
    exact key { s with currentMessage := m } hl rfl rfl
  · rw [if_neg h1]
    have h2 : m.type = "user-place" := ht.resolve_left h1
    rw [if_pos h2]
    exact key s hl rfl rfl

/-- Witness for C3 (amended): registry {1, 3, 4}, a chat message, all writes succeed. -/
theorem dispatch_reaches_every_client_witness :
    ∃ s1, handleMsg (fun _ _ => true) ⟨"message", "again", 0, 0⟩
        ⟨[1, 3, 4], false, Message.zero, [], []⟩ = .returned s1 ∧
      s1.clients = [1, 3, 4] ∧
      s1.writes = [] ++ [1, 3, 4].map (fun c => ⟨c, ⟨"message", "again", 0, 0⟩, true, true⟩) ∧
      ∀ sender ∈ [1, 3, 4],
        (⟨sender, ⟨"message", "again", 0, 0⟩, true, true⟩ : Write) ∈ s1.writes :=
  dispatch_reaches_every_client (fun _ _ => true) ⟨"message", "again", 0, 0⟩
    ⟨[1, 3, 4], false, Message.zero, [], []⟩ (Or.inl rfl) rfl (fun _ _ _ _ => rfl)

/-- C4: every finite sequence of `addClient` / `removeClient` calls on an empty registry
returns, and the final keys are the set obtained by folding the sequence with set-insert
and set-delete, without duplicates; `removeClient` of an absent connection, and so a
second `removeClient` of the same connection, returns and leaves the state unchanged. -/
theorem registry_matches_set_fold (ops : List RegOp) (s0 : State)
    (he : s0.clients = []) (hl : s0.locked = false) :
    (∃ s1, runOps ops s0 = .returned s1 ∧ s1.clients.toFinset = specMembers ops ∅ ∧
      s1.clients.Nodup) ∧
    (∀ (s : State) (ws : Conn), s.locked = false → ws ∉ s.clients →
      removeClient ws s = .returned s) ∧
    (∀ (s s1 : State) (ws : Conn), removeClient ws s = .returned s1 →
      removeClient ws s1 = .returned s1) := by
  refine ⟨?_, ?_, ?_⟩
  · obtain ⟨s1, h1, h2, h3, _⟩ := runOps_spec ops s0 hl
    refine ⟨s1, h1, ?_, h3 (by rw [he]; exact List.nodup_nil)⟩
    rw [h2, he]
    rfl
  · intro s ws hs hn
    rw [removeClient_unlocked ws s hs, mapDelete_of_not_mem ws s.clients hn]
  · intro s s1 ws h
    obtain ⟨hs, rfl⟩ := removeClient_returned ws s s1 h
    have hn : ws ∉ mapDelete ws s.clients := by
      rw [mem_mapDelete]
      exact fun h => h.1 rfl
    rw [removeClient_unlocked ws { s with clients := mapDelete ws s.clients } hs]
    simp only [mapDelete_of_not_mem ws _ hn]

/-- Witness for C4: a sequence with a duplicate add, a remove of an absent connection and
a repeated remove, from the initial state. -/
theorem registry_matches_set_fold_witness :
    (∃ s1, runOps [.add 1, .add 2, .add 1, .remove 7, .remove 1, .remove 1] State.init
        = .returned s1 ∧
      s1.clients.toFinset
        = specMembers [.add 1, .add 2, .add 1, .remove 7, .remove 1, .remove 1] ∅ ∧
      s1.clients.Nodup) ∧
    (∀ (s : State) (ws : Conn), s.locked = false → ws ∉ s.clients →
      removeClient ws s = .returned s) ∧
    (∀ (s s1 : State) (ws : Conn), removeClient ws s = .returned s1 →
      removeClient ws s1 = .returned s1) :=
  registry_matches_set_fold [.add 1, .add 2, .add 1, .remove 7, .remove 1, .remove 1]
    State.init rfl rfl

/-- C6: dispatching messages of type "user-place" never changes `currentMessage`,
whether the dispatches return or get stuck; and when a handler has read a chat message
`M` followed by cursor messages and waits for its next read, `currentMessage` is `M` and
a connection joining then is replayed `M` as the first write made to it. -/
theorem cursor_moves_keep_currentMessage (wr : Nat → Conn → Bool) (cs : List Message)
    (hcs : ∀ c ∈ cs, c.type = "user-place") :
    (∀ s : State,
      (receiveLoop wr (cs.map ReadResult.msg) s).state.currentMessage = s.currentMessage) ∧
    (∀ (M : Message) (s0 s2 : State), M.type = "message" →
      receiveLoop wr (.msg M :: cs.map ReadResult.msg) s0 = .waiting s2 →
      s2.currentMessage = M ∧
      ∀ (ws : Conn) (reads : List ReadResult),
        ∃ ok tail, (WebSocketHandler wr (some ws) reads s2).state.writes
          = s2.writes ++ ⟨ws, M, false, ok⟩ :: tail) := by
  have frame : ∀ (l : List Message), (∀ c ∈ l, c.type = "user-place") → ∀ s : State,
      (receiveLoop wr (l.map ReadResult.msg) s).state.currentMessage = s.currentMessage := by
    intro l
    induction l with
    | nil => intro _ s; rfl
    | cons c tl ih =>
      intro hl s
      have hc : c.type ≠ "message" := by
        rw [hl c (List.mem_cons_self _ _)]
        decide
      have hcur := (handleMsg_frame wr c s).2.2.2.2 hc
      simp only [List.map_cons, receiveLoop]
      cases hh : handleMsg wr c s with
      | returned s1 =>
        rw [hh] at hcur
        simp only [Result.state] at hcur
        simp only
        rw [ih (fun d hd => hl d (List.mem_cons_of_mem _ hd)) s1, hcur]
      | blocked s1 =>
        rw [hh] at hcur
        exact hcur
  refine ⟨frame cs hcs, ?_⟩
  intro M s0 s2 hM hw
  simp only [receiveLoop] at hw
  cases hh : handleMsg wr M s0 with
  | blocked s1 =>
    rw [hh] at hw
    exact LoopResult.noConfusion hw
  | returned s1 =>
    rw [hh] at hw
    simp only at hw
    have hl1 : s1.locked = false := by
      unfold handleMsg at hh
      rw [if_pos hM] at hh
      exact (broadcastMessage_frame wr M { s0 with currentMessage := M }).2.2.2 s1 hh
    have hc1 : s1.currentMessage = M := by
      have := (handleMsg_frame wr M s0).2.2.2.1 hM
      rw [hh] at this
      exact this
    have hc2 : s2.currentMessage = M := by
      have := frame cs hcs s1
      rw [hw] at this
      simp only [LoopResult.state] at this
      rw [this, hc1]
    have hl2 : s2.locked = false :=
      (receiveLoop_frame wr (cs.map ReadResult.msg) s1).2 hl1 s2 (Or.inr hw)
    refine ⟨hc2, ?_⟩
    intro ws reads
    obtain ⟨ok, tail, ht⟩ := handler_replays_first wr ws reads s2 hl2
    rw [hc2] at ht
    exact ⟨ok, tail, ht⟩

/-- Witness for C6: registry {1}, the chat message "hello" followed by two cursor
messages. -/
theorem cursor_moves_keep_currentMessage_witness :
    (⟨[1], false, ⟨"message", "hello", 0, 0⟩,
        [⟨1, ⟨"message", "hello", 0, 0⟩, true, true⟩,
         ⟨1, ⟨"user-place", "", 3, 4⟩, true, true⟩,
         ⟨1, ⟨"user-place", "", 5, 6⟩, true, true⟩], []⟩ : State).currentMessage
      = ⟨"message", "hello", 0, 0⟩ ∧
    ∀ (ws : Conn) (reads : List ReadResult),
      ∃ ok tail, (WebSocketHandler (fun _ _ => true) (some ws) reads
          ⟨[1], false, ⟨"message", "hello", 0, 0⟩,
            [⟨1, ⟨"message", "hello", 0, 0⟩, true, true⟩,
             ⟨1, ⟨"user-place", "", 3, 4⟩, true, true⟩,
             ⟨1, ⟨"user-place", "", 5, 6⟩, true, true⟩], []⟩).state.writes
        = [⟨1, ⟨"message", "hello", 0, 0⟩, true, true⟩,
           ⟨1, ⟨"user-place", "", 3, 4⟩, true, true⟩,
           ⟨1, ⟨"user-place", "", 5, 6⟩, true, true⟩]
            ++ ⟨ws, ⟨"message", "hello", 0, 0⟩, false, ok⟩ :: tail :=
  (cursor_moves_keep_currentMessage (fun _ _ => true)
      [⟨"user-place", "", 3, 4⟩, ⟨"user-place", "", 5, 6⟩] (by decide)).2
    ⟨"message", "hello", 0, 0⟩ ⟨[1], false, Message.zero, [], []⟩ _ rfl (by decide)

/-- C7 (counterexample): a broadcast to the registry {1} writes to connection 1 while
`clientsMutex` is held. -/
theorem broadcast_writes_under_mutex :
    broadcastMessage (fun _ _ => true) ⟨"message", "hi", 0, 0⟩
        ⟨[1], false, Message.zero, [], []⟩
      = .returned ⟨[1], false, Message.zero,
          [⟨1, ⟨"message", "hi", 0, 0⟩, true, true⟩], []⟩ := by
  decide

/-- C7 (amended): `addClient` and `removeClient` make no write; every write made by
`broadcastMessage` is made while `clientsMutex` is held; the replay write of a handler
started with the mutex free is made while the mutex is not held. -/
theorem writes_and_mutex (wr : Nat → Conn → Bool) :
    (∀ (ws : Conn) (s : State),
      (addClient ws s).state.writes = s.writes ∧ (removeClient ws s).state.writes = s.writes) ∧
    (∀ (msg : Message) (s : State),
      ∃ new, (broadcastMessage wr msg s).state.writes = s.writes ++ new ∧
        ∀ x ∈ new, x.held = true) ∧
    (∀ (ws : Conn) (reads : List ReadResult) (s : State), s.locked = false →
      ∃ ok tail, (WebSocketHandler wr (some ws) reads s).state.writes
        = s.writes ++ ⟨ws, s.currentMessage, false, ok⟩ :: tail) := by
  refine ⟨fun ws s => ⟨addClient_writes ws s, removeClient_writes ws s⟩, ?_, ?_⟩
  · intro msg s
    obtain ⟨_, _, ⟨new, h1, h2⟩, _⟩ := broadcastMessage_frame wr msg s
    exact ⟨new, h1, fun x hx => (h2 x hx).1⟩
  · intro ws reads s hl
    exact handler_replays_first wr ws reads s hl

/-- Witness for C7 (amended): the replay write of connection 1 joining the initial
state. -/
theorem writes_and_mutex_witness :
    ∃ ok tail, (WebSocketHandler (fun _ _ => true) (some 1) [.closeErr]
        State.init).state.writes
      = State.init.writes ++ ⟨1, State.init.currentMessage, false, ok⟩ :: tail :=
  (writes_and_mutex (fun _ _ => true)).2.2 1 [.closeErr] State.init rfl

/-- C8: a decoded message whose type is neither "message" nor "user-place" is dispatched
without any effect on the state (no write, registry and `currentMessage` as before), and
the receive loop goes on with the next read. -/
theorem unknown_type_ignored (wr : Nat → Conn → Bool) (m : Message) (s : State)
    (rest : List ReadResult) (h1 : m.type ≠ "message") (h2 : m.type ≠ "user-place") :
    handleMsg wr m s = .returned s ∧
    receiveLoop wr (.msg m :: rest) s = receiveLoop wr rest s := by
  have h : handleMsg wr m s = .returned s := by
    unfold handleMsg
    rw [if_neg h1, if_neg h2]
  refine ⟨h, ?_⟩
  simp only [receiveLoop, h]

/-- Witness for C8: a message of type "ping". -/
theorem unknown_type_ignored_witness :
    handleMsg (fun _ _ => true) ⟨"ping", "x", 1, 2⟩ ⟨[1, 2], false, Message.zero, [], []⟩
      = .returned ⟨[1, 2], false, Message.zero, [], []⟩ ∧
    receiveLoop (fun _ _ => true) [.msg ⟨"ping", "x", 1, 2⟩, .closeErr]
        ⟨[1, 2], false, Message.zero, [], []⟩
      = receiveLoop (fun _ _ => true) [.closeErr] ⟨[1, 2], false, Message.zero, [], []⟩ :=
  unknown_type_ignored (fun _ _ => true) ⟨"ping", "x", 1, 2⟩
    ⟨[1, 2], false, Message.zero, [], []⟩ [.closeErr] (by decide) (by decide)

/-- C9: whenever `WebSocketHandler` returns after a successful upgrade, whatever was read
and whatever the writes did, the handled connection is not in the registry and has been
closed. -/
theorem handler_return_unregisters (wr : Nat → Conn → Bool) (ws : Conn)
    (reads : List ReadResult) (s s1 : State)
    (h : WebSocketHandler wr (some ws) reads s = .returned s1) :
    ws ∉ s1.clients ∧ ws ∈ s1.closed := by
  unfold WebSocketHandler at h
  simp only at h
  cases ha : addClient ws s with
  | blocked t => rw [ha] at h; exact HResult.noConfusion h
  | returned t =>
    rw [ha] at h
    simp only at h
    cases hs : sendMessage wr ws t.currentMessage t with
    | blocked t2 => rw [hs] at h; exact HResult.noConfusion h
    | returned t2 =>
      rw [hs] at h
      simp only at h
      cases hr : receiveLoop wr reads t2 with
      | blocked t3 => rw [hr] at h; exact HResult.noConfusion h
      | waiting t3 => rw [hr] at h; exact HResult.noConfusion h
      | exited t3 =>
        rw [hr] at h
        simp only at h
        cases hd : removeClient ws t3 with
        | blocked t4 => rw [hd] at h; exact HResult.noConfusion h
        | returned t4 =>
          rw [hd] at h
          simp only [HResult.returned.injEq] at h
          obtain ⟨_, rfl⟩ := removeClient_returned ws t3 t4 hd
          rw [← h]
          refine ⟨?_, ?_⟩
          · simp only [closeConn, mem_mapDelete]
            exact fun hc => hc.1 rfl
          · simp [closeConn]

/-- Witness for C9: connection 2 joins the registry {1}, is replayed the empty message,
sends one chat message, which is broadcast to 1 and 2, and then closes; every write
succeeds.  The deferred `removeClient` is what takes 2 out of the registry. -/
theorem handler_return_unregisters_witness :
    2 ∉ (⟨[1], false, ⟨"message", "hi", 0, 0⟩,
          [⟨2, Message.zero, false, true⟩, ⟨1, ⟨"message", "hi", 0, 0⟩, true, true⟩,
           ⟨2, ⟨"message", "hi", 0, 0⟩, true, true⟩],
          [2]⟩ : State).clients ∧
    2 ∈ (⟨[1], false, ⟨"message", "hi", 0, 0⟩,
          [⟨2, Message.zero, false, true⟩, ⟨1, ⟨"message", "hi", 0, 0⟩, true, true⟩,
           ⟨2, ⟨"message", "hi", 0, 0⟩, true, true⟩],
          [2]⟩ : State).closed :=
  handler_return_unregisters (fun _ _ => true) 2
    [.msg ⟨"message", "hi", 0, 0⟩, .closeErr] ⟨[1], false, Message.zero, [], []⟩ _
    (by decide)

/-- C10: the encoded object of every message has the key "type", and has the key "text"
exactly when `Text` is non-empty, "x" exactly when `X` is non-zero and "y" exactly when
`Y` is non-zero; a cursor message with `X = 0` and `Y = 7` has the keys type and y only. -/
theorem encode_keys (m : Message) :
    "type" ∈ m.encodedKeys ∧
    ("text" ∈ m.encodedKeys ↔ m.Text ≠ "") ∧
    ("x" ∈ m.encodedKeys ↔ m.X ≠ 0) ∧
    ("y" ∈ m.encodedKeys ↔ m.Y ≠ 0) ∧
    (⟨"user-place", "", 0, 7⟩ : Message).encodedKeys = ["type", "y"] := by
  refine ⟨?_, ?_, ?_, ?_, by decide⟩
  · simp [Message.encodedKeys, Message.encode, marshalFields, Message.fields, List.filter]
  all_goals
    by_cases ht : m.Text = "" <;> by_cases hx : m.X = 0 <;> by_cases hy : m.Y = 0 <;>
      simp [Message.encodedKeys, Message.encode, marshalFields, Message.fields, List.filter,
        JVal.isEmptyValue, ht, hx, hy]

end Echooo
